import Mathlib

/-!
Verification of the matching core of the PCTE Lost & Found Management System
(`lost.py`): text normalization (`preprocess`), TF-IDF vector-space indexing
(`Matcher.build`), and ranked cosine-similarity retrieval
(`Matcher.find_matches`), against the natural-language specification.

The Python source delegates tokenization, stopwords and stemming to NLTK and
vectorization to scikit-learn.  Those collaborators are modelled here as
executable Lean definitions: the tokenizer as maximal alphanumeric runs with
other printable characters as single-character tokens, the stopword set as
NLTK's fixed English list, the stemmer as the Porter suffix-stripping
algorithm, and `TfidfVectorizer` / `cosine_similarity` with exact real
arithmetic (smoothed logarithmic IDF, L2 normalization, zero-vector guard,
and the empty-vocabulary error raised by `fit`).
-/

namespace Lost

/-! ## Tokenizer (model of `nltk.word_tokenize` on this system's inputs) -/

/-- Word-constituent characters: letters and digits. -/
def isWordChar (c : Char) : Bool := c.isAlphanum

/-- Tokenize a character list: maximal runs of word characters are tokens,
whitespace separates, and any other character is a single-character token.
`cur` is the (reversed) run currently being read. -/
def tokenizeAux : List Char → List Char → List (List Char)
  | [], cur => if cur.isEmpty then [] else [cur.reverse]
  | c :: rest, cur =>
    if isWordChar c then
      tokenizeAux rest (c :: cur)
    else
      let flushed := if cur.isEmpty then [] else [cur.reverse]
      if c.isWhitespace then flushed ++ tokenizeAux rest []
      else flushed ++ [[c]] ++ tokenizeAux rest []

/-- Model of `nltk.word_tokenize`. -/
def word_tokenize (s : String) : List String :=
  (tokenizeAux s.data []).map String.mk

/-! ## Stopwords (the fixed NLTK English list)

Entries containing an apostrophe (`you're`, `don't`, ...) are omitted:
`preprocess` consults the set only on tokens that pass `str.isalpha`, and a
purely alphabetic token can never equal a string containing an apostrophe,
so the omission is unobservable. -/

def STOPWORDS : List String :=
  ["i", "me", "my", "myself", "we", "our", "ours", "ourselves", "you",
   "your", "yours", "yourself", "yourselves", "he", "him", "his", "himself",
   "she", "her", "hers", "herself", "it", "its", "itself", "they", "them",
   "their", "theirs", "themselves", "what", "which", "who", "whom", "this",
   "that", "these", "those", "am", "is", "are", "was", "were", "be", "been",
   "being", "have", "has", "had", "having", "do", "does", "did", "doing",
   "a", "an", "the", "and", "but", "if", "or", "because", "as", "until",
   "while", "of", "at", "by", "for", "with", "about", "against", "between",
   "into", "through", "during", "before", "after", "above", "below", "to",
   "from", "up", "down", "in", "out", "on", "off", "over", "under", "again",
   "further", "then", "once", "here", "there", "when", "where", "why",
   "how", "all", "any", "both", "each", "few", "more", "most", "other",
   "some", "such", "no", "nor", "not", "only", "own", "same", "so", "than",
   "too", "very", "s", "t", "can", "will", "just", "don", "should", "now",
   "d", "ll", "m", "o", "re", "ve", "y", "ain", "aren", "couldn", "didn",
   "doesn", "hadn", "hasn", "haven", "isn", "ma", "mightn", "mustn",
   "needn", "shan", "shouldn", "wasn", "weren", "won", "wouldn"]

/-! ## Small string helpers mirroring Python builtins -/

/-- Python `str.lower` (per-character case folding). -/
def strLower (s : String) : String := ⟨s.data.map Char.toLower⟩

/-- Python `str.isalpha`: nonempty and every character alphabetic. -/
def isalpha (w : String) : Bool := !w.data.isEmpty && w.data.all Char.isAlpha

/-! ## Porter stemmer (model of NLTK's `PorterStemmer`)

The classic Porter (1980) suffix-stripping algorithm; like NLTK, words of
length at most 2 are returned unchanged. -/

/-- Shorthand: the character list of a string literal. -/
def cs (s : String) : List Char := s.data

/-- Consonant flags of a word: `true` at consonant positions.  A letter is a
consonant if it is not `a,e,i,o,u` and not a `y` preceded by a consonant. -/
def consFlagsAux : List Char → Bool → List Bool
  | [], _ => []
  | c :: rest, prevCons =>
    let f :=
      if c = 'a' ∨ c = 'e' ∨ c = 'i' ∨ c = 'o' ∨ c = 'u' then false
      else if c = 'y' then !prevCons
      else true
    f :: consFlagsAux rest f

def consFlags (w : List Char) : List Bool := consFlagsAux w false

/-- Count `false → true` (vowel-block to consonant-block) transitions. -/
def vcTransitions : Bool → List Bool → ℕ
  | _, [] => 0
  | prev, f :: fs => (if !prev && f then 1 else 0) + vcTransitions f fs

/-- The Porter measure `m` of a word. -/
def measure (w : List Char) : ℕ :=
  match consFlags w with
  | [] => 0
  | f :: fs => vcTransitions f fs

def containsVowel (w : List Char) : Bool := (consFlags w).contains false

/-- `*d`: the word ends with a double consonant. -/
def endsDoubleCons (w : List Char) : Bool :=
  match w.reverse, (consFlags w).reverse with
  | a :: b :: _, fa :: _ => a = b && fa
  | _, _ => false

/-- `*o`: the word ends consonant-vowel-consonant, last not `w,x,y`. -/
def endsCVC (w : List Char) : Bool :=
  match w.reverse, (consFlags w).reverse with
  | c3 :: _ :: _ :: _, f3 :: f2 :: f1 :: _ =>
    f3 && !f2 && f1 && !(c3 = 'w' ∨ c3 = 'x' ∨ c3 = 'y')
  | _, _ => false

/-- Drop the last `n` characters. -/
def chop (w : List Char) (n : ℕ) : List Char := w.take (w.length - n)

/-- A Porter rewrite rule: suffix, replacement, condition on the stem. -/
structure PRule where
  suf : List Char
  rep : List Char
  cond : List Char → Bool

/-- Apply the first rule whose suffix matches; if its condition fails on the
stem, the word is left unchanged (no further rule is tried). -/
def applyRules : List PRule → List Char → List Char
  | [], w => w
  | r :: rs, w =>
    if r.suf.isSuffixOf w then
      let st := chop w r.suf.length
      if r.cond st then st ++ r.rep else w
    else applyRules rs w

def condM0 : List Char → Bool := fun u => 0 < measure u
def condM1 : List Char → Bool := fun u => 1 < measure u

def step1a (w : List Char) : List Char :=
  if (cs "sses").isSuffixOf w then chop w 2
  else if (cs "ies").isSuffixOf w then chop w 2
  else if (cs "ss").isSuffixOf w then w
  else if (cs "s").isSuffixOf w then chop w 1
  else w

/-- Cleanup after removing `ed`/`ing`. -/
def step1b2 (w : List Char) : List Char :=
  if (cs "at").isSuffixOf w ∨ (cs "bl").isSuffixOf w ∨ (cs "iz").isSuffixOf w then
    w ++ ['e']
  else if endsDoubleCons w ∧
      !((cs "l").isSuffixOf w ∨ (cs "s").isSuffixOf w ∨ (cs "z").isSuffixOf w) then
    chop w 1
  else if measure w = 1 ∧ endsCVC w then w ++ ['e']
  else w

def step1b (w : List Char) : List Char :=
  if (cs "eed").isSuffixOf w then
    (if 0 < measure (chop w 3) then chop w 1 else w)
  else if (cs "ed").isSuffixOf w ∧ containsVowel (chop w 2) then
    step1b2 (chop w 2)
  else if (cs "ing").isSuffixOf w ∧ containsVowel (chop w 3) then
    step1b2 (chop w 3)
  else w

def step1c (w : List Char) : List Char :=
  if (cs "y").isSuffixOf w ∧ containsVowel (chop w 1) then chop w 1 ++ ['i']
  else w

def step2Rules : List PRule :=
  [⟨cs "ational", cs "ate", condM0⟩, ⟨cs "tional", cs "tion", condM0⟩,
   ⟨cs "enci", cs "ence", condM0⟩, ⟨cs "anci", cs "ance", condM0⟩,
   ⟨cs "izer", cs "ize", condM0⟩, ⟨cs "abli", cs "able", condM0⟩,
   ⟨cs "alli", cs "al", condM0⟩, ⟨cs "entli", cs "ent", condM0⟩,
   ⟨cs "eli", cs "e", condM0⟩, ⟨cs "ousli", cs "ous", condM0⟩,
   ⟨cs "ization", cs "ize", condM0⟩, ⟨cs "ation", cs "ate", condM0⟩,
   ⟨cs "ator", cs "ate", condM0⟩, ⟨cs "alism", cs "al", condM0⟩,
   ⟨cs "iveness", cs "ive", condM0⟩, ⟨cs "fulness", cs "ful", condM0⟩,
   ⟨cs "ousness", cs "ous", condM0⟩, ⟨cs "aliti", cs "al", condM0⟩,
   ⟨cs "iviti", cs "ive", condM0⟩, ⟨cs "biliti", cs "ble", condM0⟩]

def step3Rules : List PRule :=
  [⟨cs "icate", cs "ic", condM0⟩, ⟨cs "ative", cs "", condM0⟩,
   ⟨cs "alize", cs "al", condM0⟩, ⟨cs "iciti", cs "ic", condM0⟩,
   ⟨cs "ical", cs "ic", condM0⟩, ⟨cs "ful", cs "", condM0⟩,
   ⟨cs "ness", cs "", condM0⟩]

/-- `ion` is removed only when the stem ends in `s` or `t`. -/
def condIon : List Char → Bool := fun u =>
  condM1 u && ((cs "s").isSuffixOf u || (cs "t").isSuffixOf u)

def step4Rules : List PRule :=
  [⟨cs "al", cs "", condM1⟩, ⟨cs "ance", cs "", condM1⟩,
   ⟨cs "ence", cs "", condM1⟩, ⟨cs "er", cs "", condM1⟩,
   ⟨cs "ic", cs "", condM1⟩, ⟨cs "able", cs "", condM1⟩,
   ⟨cs "ible", cs "", condM1⟩, ⟨cs "ant", cs "", condM1⟩,
   ⟨cs "ement", cs "", condM1⟩, ⟨cs "ment", cs "", condM1⟩,
   ⟨cs "ent", cs "", condM1⟩, ⟨cs "ion", cs "", condIon⟩,
   ⟨cs "ou", cs "", condM1⟩, ⟨cs "ism", cs "", condM1⟩,
   ⟨cs "ate", cs "", condM1⟩, ⟨cs "iti", cs "", condM1⟩,
   ⟨cs "ous", cs "", condM1⟩, ⟨cs "ive", cs "", condM1⟩,
   ⟨cs "ize", cs "", condM1⟩]

def step5a (w : List Char) : List Char :=
  if (cs "e").isSuffixOf w then
    let a := chop w 1
    if 1 < measure a ∨ (measure a = 1 ∧ !endsCVC a) then a else w
  else w

def step5b (w : List Char) : List Char :=
  if 1 < measure w ∧ endsDoubleCons w ∧ (cs "l").isSuffixOf w then chop w 1
  else w

def porterList (w : List Char) : List Char :=
  step5b (step5a (applyRules step4Rules (applyRules step3Rules
    (applyRules step2Rules (step1c (step1b (step1a w)))))))

/-- Model of `nltk.stem.PorterStemmer().stem`. -/
def stem (w : String) : String :=
  if w.length ≤ 2 then w else ⟨porterList w.data⟩

/-! ## `preprocess` (lost.py lines 163-170) -/

/-- `preprocess(text)` from `lost.py`: on falsy input return `''`; otherwise
lowercase, tokenize, keep alphabetic non-stopword tokens, stem, and join
with single spaces.  `none` models Python `None`. -/
def preprocess (text : Option String) : String :=
  if text.getD "" = "" then ""
  else
    let t := strLower (text.getD "")
    let tokens := word_tokenize t
    let tokens := tokens.filter (fun w => isalpha w && !(STOPWORDS.contains w))
    let tokens := tokens.map stem
    String.intercalate " " tokens

/-- The spec's four-step normalization contract (§4.1), stated as an ordered
token sequence: lowercase the whole string, tokenize, discard tokens that
contain any non-alphabetic character, remove stopwords, stem each remaining
token; null input yields the empty sequence. -/
def normalizeSpec (text : Option String) : List String :=
  match text with
  | none => []
  | some t =>
    ((((word_tokenize (strLower t)).filter isalpha).filter
        (fun w => !(STOPWORDS.contains w))).map stem)

/-! ## Data model (the `items` table of `DB`) -/

/-- One row of the `items` table; `name`, `description`, `place` and
`image_path` may be `NULL`. -/
structure Item where
  id : String
  type : String
  name : Option String
  description : Option String
  place : Option String
  date : String
  contact : String
  image_path : Option String
deriving DecidableEq

/-- `DB.get_items(type=ty)`: all rows of one type, in store order. -/
def get_items (store : List Item) (ty : String) : List Item :=
  store.filter (fun it => it.type == ty)

/-- `'found' if item['type']=='lost' else 'lost'` (lost.py line 190). -/
def opposite (ty : String) : String := if ty = "lost" then "found" else "lost"

/-- `(it['name'] or '') + ' ' + (it['description'] or '') + ' ' + (it['place'] or '')`. -/
def itemText (it : Item) : String :=
  (it.name.getD "") ++ " " ++ (it.description.getD "") ++ " " ++ (it.place.getD "")

/-- `Matcher.build`: the corpus ids, in store-retrieval order. -/
def corpusIds (store : List Item) (opp : String) : List String :=
  (get_items store opp).map (·.id)

/-- `Matcher.build`: the normalized corpus documents, in store-retrieval order. -/
def corpusTexts (store : List Item) (opp : String) : List String :=
  (get_items store opp).map (fun it => preprocess (some (itemText it)))

/-! ## TF-IDF vector space (model of sklearn `TfidfVectorizer`, default
parameters) and `cosine_similarity` -/

/-- The vectorizer's analyzer: lowercase, then the default token pattern
`\w\w+` — maximal word-character runs of length at least two. -/
def sklearnTokenize (s : String) : List String :=
  ((tokenizeAux (s.data.map Char.toLower) []).filter (fun l => 2 ≤ l.length)).map
    String.mk

/-- The fitted vocabulary: the distinct analyzer tokens of the corpus.
(sklearn additionally sorts the vocabulary to assign column indices; column
order is unobservable here because vectors are indexed by the term itself.) -/
def fitVocab (texts : List String) : List String :=
  (texts.flatMap sklearnTokenize).dedup

/-- A fitted `TfidfVectorizer`: its vocabulary and its fitted corpus. -/
structure Vectorizer where
  vocab : List String
  texts : List String

/-- Term frequency of `t` in one document. -/
def tfCount (doc t : String) : ℕ := (sklearnTokenize doc).count t

/-- Document frequency of `t` in the fitted corpus. -/
def dfCount (texts : List String) (t : String) : ℕ :=
  (texts.filter (fun d => (sklearnTokenize d).contains t)).length

/-- `TfidfVectorizer().fit(corpus)`: raises `ValueError` when the corpus
yields an empty vocabulary (e.g. every document is empty or contains only
single-character tokens). -/
def fit (texts : List String) : Except String Vectorizer :=
  if (fitVocab texts).isEmpty then
    Except.error "empty vocabulary; perhaps the documents only contain stop words"
  else Except.ok ⟨fitVocab texts, texts⟩

/-- Smoothed logarithmic inverse document frequency (sklearn default
`smooth_idf=True`): `ln((1+N)/(1+df)) + 1`. -/
noncomputable def idf (vz : Vectorizer) (t : String) : ℝ :=
  Real.log ((1 + vz.texts.length) / (1 + dfCount vz.texts t)) + 1

/-- Unnormalized TF-IDF vector of a document, indexed by term; terms outside
the fitted vocabulary contribute zero. -/
noncomputable def rawVec (vz : Vectorizer) (doc : String) : String → ℝ :=
  fun t => if t ∈ vz.vocab then (tfCount doc t : ℝ) * idf vz t else 0

/-- Euclidean norm of a vector over the coordinate list `V`. -/
noncomputable def vnorm (V : List String) (u : String → ℝ) : ℝ :=
  Real.sqrt ((V.map (fun t => u t ^ 2)).sum)

/-- sklearn `normalize`: scale to unit norm, leaving zero vectors unchanged. -/
noncomputable def l2normalize (V : List String) (u : String → ℝ) : String → ℝ :=
  if vnorm V u = 0 then u else fun t => u t / vnorm V u

/-- `TfidfVectorizer.transform` on one document (default `norm='l2'`). -/
noncomputable def transform (vz : Vectorizer) (doc : String) : String → ℝ :=
  l2normalize vz.vocab (rawVec vz doc)

/-- Dot product over the coordinate list `V`. -/
noncomputable def vdot (V : List String) (u v : String → ℝ) : ℝ :=
  (V.map (fun t => u t * v t)).sum

/-- sklearn `cosine_similarity` of two vectors: the dot product of their
L2-normalizations (zero vectors stay zero, so the similarity is 0.0). -/
noncomputable def cosineSim (V : List String) (u v : String → ℝ) : ℝ :=
  vdot V (l2normalize V u) (l2normalize V v)

/-! ## `Matcher.find_matches` (lost.py lines 189-207) -/

/-- `cosine_similarity(qv, corpus_v)[0]`: the similarity of the transformed
query with each transformed corpus document, in corpus order. -/
noncomputable def simScores (vz : Vectorizer) (query : String)
    (texts : List String) : List ℝ :=
  (texts.map (transform vz)).map (fun cv => cosineSim vz.vocab (transform vz query) cv)

/-- `sorted(zip(ids, sims), key=lambda x: x[1], reverse=True)`: Python's
stable descending sort, modelled by insertion sort on the same comparator. -/
noncomputable def rankByScore (pairs : List (String × ℝ)) : List (String × ℝ) :=
  List.insertionSort (fun a b => b.2 ≤ a.2) pairs

/-- The ranked `(id, score)` pairs of lost.py line 198. -/
noncomputable def rankedPairs (vz : Vectorizer) (query : String)
    (ids : List String) (texts : List String) : List (String × ℝ) :=
  rankByScore (ids.zip (simScores vz query texts))

/-- Lines 200-206: re-attach full records to the ranked ids (first store
match wins) and pair each with its float score. -/
def joinResults (all_opposite : List Item) (ranked : List (String × ℝ)) :
    List (Item × ℝ) :=
  ranked.foldl (fun acc p =>
    match all_opposite.filter (fun it => it.id == p.1) with
    | [] => acc
    | it :: _ => acc ++ [(it, p.2)]) []

/-- `Matcher.find_matches(item, topk)`: select the opposite-type corpus,
rebuild the index (an empty corpus yields no matches; `fit` may raise), rank
by cosine similarity, keep `topk`, and join with the full records. -/
noncomputable def find_matches (store : List Item) (item : Item) (topk : ℕ) :
    Except String (List (Item × ℝ)) :=
  if (corpusTexts store (opposite item.type)).isEmpty then Except.ok []
  else
    match fit (corpusTexts store (opposite item.type)) with
    | Except.error e => Except.error e
    | Except.ok vz =>
      Except.ok (joinResults (get_items store (opposite item.type))
        ((rankedPairs vz (preprocess (some (itemText item)))
          (corpusIds store (opposite item.type))
          (corpusTexts store (opposite item.type))).take topk))

/-! ## Concrete fixtures used by witnesses and counterexamples -/

def itemF : Item := ⟨"F1", "found", some "wallet", none, none, "2025-01-01", "9876", none⟩
def queryL : Item := ⟨"Q1", "lost", some "wallet", none, none, "2025-01-02", "1234", none⟩
def storeW : List Item := [itemF]
def itemL : Item := ⟨"L1", "lost", some "wallet", none, none, "2025-01-01", "9876", none⟩
def storeL : List Item := [itemL]
def bananaQ : Item := ⟨"B1", "banana", some "wallet", none, none, "2025-01-02", "1234", none⟩
def badItem : Item := ⟨"F2", "found", some "a", none, none, "2025-01-01", "9876", none⟩
def badStore : List Item := [badItem]

/-! ## Concrete evaluation of `find_matches` on a one-record wallet corpus -/

/-- The vectorizer fitted on the single normalized document `"wallet"`. -/
def vzW : Vectorizer := ⟨["wallet"], ["wallet"]⟩

theorem fit_wallet : fit ["wallet"] = Except.ok vzW := rfl

theorem idf_wallet : idf vzW "wallet" = 1 := by
  have hdf : dfCount ["wallet"] "wallet" = 1 := by decide
  simp only [idf, vzW]
  norm_num [hdf, Real.log_one]

theorem rawVec_wallet : rawVec vzW "wallet" "wallet" = 1 := by
  have htf : tfCount "wallet" "wallet" = 1 := by decide
  simp only [rawVec, htf, idf_wallet]
  simp [vzW]

theorem vnorm_rawVec_wallet : vnorm ["wallet"] (rawVec vzW "wallet") = 1 := by
  simp [vnorm, rawVec_wallet]

theorem transform_wallet : transform vzW "wallet" "wallet" = 1 := by
  have hv : vzW.vocab = ["wallet"] := rfl
  simp only [transform, l2normalize, hv, vnorm_rawVec_wallet]
  simp [rawVec_wallet]

theorem vnorm_transform_wallet : vnorm ["wallet"] (transform vzW "wallet") = 1 := by
  simp [vnorm, transform_wallet]

theorem cosineSim_wallet :
    cosineSim ["wallet"] (transform vzW "wallet") (transform vzW "wallet") = 1 := by
  simp only [cosineSim, l2normalize, vnorm_transform_wallet]
  norm_num [vdot, transform_wallet]

theorem simScores_wallet : simScores vzW "wallet" ["wallet"] = [1] := by
  have hv : vzW.vocab = ["wallet"] := rfl
  simp only [simScores, List.map_cons, List.map_nil, hv, cosineSim_wallet]

theorem rankedPairs_wallet (i : String) :
    rankedPairs vzW "wallet" [i] ["wallet"] = [(i, 1)] := by
  unfold rankedPairs
  rw [simScores_wallet]
  simp [rankByScore, List.insertionSort, List.orderedInsert]

theorem joinResults_single (w : Item) : joinResults [w] [(w.id, (1 : ℝ))] = [(w, 1)] := by
  simp [joinResults]

/-- Full evaluation of `find_matches` when the opposite-type corpus is one
record normalizing to `"wallet"` and the query record also normalizes to
`"wallet"`: the sole record is returned with similarity exactly 1. -/
theorem find_matches_single_wallet (store : List Item) (item : Item) (w : Item)
    (hcorp : get_items store (opposite item.type) = [w])
    (hw : preprocess (some (itemText w)) = "wallet")
    (hq : preprocess (some (itemText item)) = "wallet") :
    find_matches store item 5 = Except.ok [(w, 1)] := by
  have htexts : corpusTexts store (opposite item.type) = ["wallet"] := by
    simp [corpusTexts, hcorp, hw]
  have hids : corpusIds store (opposite item.type) = [w.id] := by
    simp [corpusIds, hcorp]
  unfold find_matches
  rw [htexts, hids, hcorp, hq, fit_wallet]
  simp only [List.isEmpty_cons, Bool.false_eq_true, if_false]
  rw [rankedPairs_wallet]
  simp only [List.take_succ_cons, List.take_nil]
  rw [joinResults_single]

/-- Evaluation at the canonical valid store: one `found` wallet, one `lost`
wallet query. -/
theorem find_matches_eval_W : find_matches storeW queryL 5 = Except.ok [(itemF, 1)] :=
  find_matches_single_wallet storeW queryL itemF (by decide) (by decide) (by decide)

/-- Evaluation at a store holding one `lost` wallet, queried with a record
whose type tag `"banana"` is not a legal enum value: the query is processed
as if it were a `found` record and matched against the `lost` corpus. -/
theorem find_matches_eval_banana :
    find_matches storeL bananaQ 5 = Except.ok [(itemL, 1)] :=
  find_matches_single_wallet storeL bananaQ itemL (by decide) (by decide) (by decide)

/-! ## Sorting lemmas: `rankByScore` is a stable descending sort -/

instance : IsTotal (String × ℝ) (fun a b => b.2 ≤ a.2) :=
  ⟨fun a b => le_total b.2 a.2⟩

instance : IsTrans (String × ℝ) (fun a b => b.2 ≤ a.2) :=
  ⟨fun _ _ _ hab hbc => le_trans hbc hab⟩

theorem filter_orderedInsert (c : ℝ) (a : String × ℝ) (l : List (String × ℝ)) :
    (List.orderedInsert (fun x y => y.2 ≤ x.2) a l).filter (fun p => p.2 = c)
      = if a.2 = c then a :: l.filter (fun p => p.2 = c)
        else l.filter (fun p => p.2 = c) := by
  induction l with
  | nil => simp [List.orderedInsert, List.filter_cons]
  | cons b l ih =>
    by_cases hr : b.2 ≤ a.2
    · simp [List.orderedInsert, hr, List.filter_cons]
    · have hlt : a.2 < b.2 := lt_of_not_le hr
      by_cases hac : a.2 = c
      · have hbc : ¬ b.2 = c := by
          subst hac; exact ne_of_gt hlt
        simp only [List.orderedInsert, if_neg hr]
        simp [List.filter_cons, hbc, ih, hac]
      · simp [List.orderedInsert, hr, List.filter_cons, hac, ih]

theorem filter_rankByScore (c : ℝ) (pairs : List (String × ℝ)) :
    (rankByScore pairs).filter (fun p => p.2 = c)
      = pairs.filter (fun p => p.2 = c) := by
  induction pairs with
  | nil => rfl
  | cons a l ih =>
    show (List.orderedInsert _ a (List.insertionSort _ l)).filter _ = _
    rw [filter_orderedInsert]
    by_cases hac : a.2 = c
    · simpa [hac, List.filter_cons] using congrArg (List.cons a) ih
    · simpa [hac, List.filter_cons] using ih

theorem sorted_rankByScore (pairs : List (String × ℝ)) :
    (rankByScore pairs).Sorted (fun a b => b.2 ≤ a.2) :=
  List.sorted_insertionSort _ pairs

/-! ## Structural lemmas about the id-to-record join (lines 200-206) -/

theorem joinResults_foldl_length (A : List Item) (R : List (String × ℝ))
    (h : ∀ p ∈ R, A.filter (fun it => it.id == p.1) ≠ []) :
    ∀ acc : List (Item × ℝ),
      (R.foldl (fun acc p =>
        match A.filter (fun it => it.id == p.1) with
        | [] => acc
        | it :: _ => acc ++ [(it, p.2)]) acc).length = acc.length + R.length := by
  induction R with
  | nil => intro acc; simp
  | cons p R ih =>
    intro acc
    have hp := h p (by simp)
    rw [List.foldl_cons]
    cases hfil : A.filter (fun it => it.id == p.1) with
    | nil => exact absurd hfil hp
    | cons it rest =>
      have h2 := ih (fun q hq => h q (List.mem_cons_of_mem p hq)) (acc ++ [(it, p.2)])
      rw [List.length_append] at h2
      rw [List.length_cons]
      exact h2.trans (by simp; omega)

theorem joinResults_length (A : List Item) (R : List (String × ℝ))
    (h : ∀ p ∈ R, A.filter (fun it => it.id == p.1) ≠ []) :
    (joinResults A R).length = R.length := by
  unfold joinResults
  rw [joinResults_foldl_length A R h []]
  simp

theorem mem_joinResults_foldl (A : List Item) (R : List (String × ℝ))
    (r : Item × ℝ) :
    ∀ acc : List (Item × ℝ),
      r ∈ R.foldl (fun acc p =>
        match A.filter (fun it => it.id == p.1) with
        | [] => acc
        | it :: _ => acc ++ [(it, p.2)]) acc →
      r ∈ acc ∨ (r.1 ∈ A ∧ ∃ p ∈ R, r.2 = p.2) := by
  induction R with
  | nil => intro acc hm; exact Or.inl hm
  | cons p R ih =>
    intro acc hm
    rw [List.foldl_cons] at hm
    rcases ih _ hm with hacc | ⟨hA, q, hq, hsc⟩
    · cases hfil : A.filter (fun it => it.id == p.1) with
      | nil =>
        rw [hfil] at hacc
        exact Or.inl hacc
      | cons it rest =>
        rw [hfil] at hacc
        rcases List.mem_append.mp hacc with hacc' | hnew
        · exact Or.inl hacc'
        · have hr : r = (it, p.2) := by simpa using hnew
          have hitA : it ∈ A := by
            have : it ∈ A.filter (fun it => it.id == p.1) := by
              rw [hfil]; exact List.mem_cons_self it rest
            exact (List.mem_filter.mp this).1
          subst hr
          exact Or.inr ⟨hitA, p, List.mem_cons_self p R, rfl⟩
    · exact Or.inr ⟨hA, q, List.mem_cons_of_mem p hq, hsc⟩

theorem mem_joinResults (A : List Item) (R : List (String × ℝ)) (r : Item × ℝ)
    (hm : r ∈ joinResults A R) :
    r.1 ∈ A ∧ ∃ p ∈ R, r.2 = p.2 := by
  have := mem_joinResults_foldl A R r [] hm
  simpa using this

/-- The ranked list of line 198 is a permutation of the corpus-order
`(id, score)` pairs, so it has the corpus's length and the same members. -/
theorem rankedPairs_perm (vz : Vectorizer) (query : String) (ids : List String)
    (texts : List String) :
    (rankedPairs vz query ids texts).Perm (ids.zip (simScores vz query texts)) :=
  List.perm_insertionSort _ _

theorem length_simScores (vz : Vectorizer) (query : String) (texts : List String) :
    (simScores vz query texts).length = texts.length := by
  simp [simScores]

/-! ## Numeric bounds: cosine similarities of nonnegative vectors lie in
`[0, 1]`, and similarity against a zero vector is exactly `0` -/

theorem sum_map_sq_nonneg (V : List String) (u : String → ℝ) :
    0 ≤ (V.map (fun t => u t ^ 2)).sum :=
  List.sum_nonneg (by
    intro x hx
    obtain ⟨t, _, rfl⟩ := List.mem_map.mp hx
    positivity)

theorem vnorm_nonneg (V : List String) (u : String → ℝ) : 0 ≤ vnorm V u :=
  Real.sqrt_nonneg _

theorem sq_vnorm (V : List String) (u : String → ℝ) :
    vnorm V u ^ 2 = (V.map (fun t => u t ^ 2)).sum :=
  Real.sq_sqrt (sum_map_sq_nonneg V u)

theorem l2normalize_nonneg (V : List String) (u : String → ℝ)
    (hu : ∀ t, 0 ≤ u t) : ∀ t, 0 ≤ l2normalize V u t := by
  intro t
  unfold l2normalize
  split
  · exact hu t
  · exact div_nonneg (hu t) (vnorm_nonneg V u)

theorem vnorm_l2normalize_le_one (V : List String) (u : String → ℝ) :
    vnorm V (l2normalize V u) ≤ 1 := by
  unfold l2normalize
  split
  case isTrue h => rw [h]; norm_num
  case isFalse h =>
    have hpos : 0 < vnorm V u := lt_of_le_of_ne (vnorm_nonneg V u) (Ne.symm h)
    have hmap : (V.map (fun t => (u t / vnorm V u) ^ 2)).sum
        = (V.map (fun t => u t ^ 2)).sum * ((vnorm V u ^ 2)⁻¹) := by
      simp only [div_eq_mul_inv, mul_pow, inv_pow]
      exact List.sum_map_mul_right V (fun t => u t ^ 2) _
    have hsum : (V.map (fun t => (u t / vnorm V u) ^ 2)).sum = 1 := by
      rw [hmap, ← sq_vnorm V u, mul_inv_cancel₀ (pow_ne_zero 2 hpos.ne')]
    show Real.sqrt ((V.map (fun t => (u t / vnorm V u) ^ 2)).sum) ≤ 1
    rw [hsum, Real.sqrt_one]

theorem vdot_nonneg (V : List String) (u v : String → ℝ)
    (hu : ∀ t, 0 ≤ u t) (hv : ∀ t, 0 ≤ v t) : 0 ≤ vdot V u v :=
  List.sum_nonneg (by
    intro x hx
    obtain ⟨t, _, rfl⟩ := List.mem_map.mp hx
    exact mul_nonneg (hu t) (hv t))

/-- Cauchy-Schwarz over the (duplicate-free) coordinate list. -/
theorem vdot_le_vnorm_mul_vnorm (V : List String) (hV : V.Nodup)
    (u v : String → ℝ) : vdot V u v ≤ vnorm V u * vnorm V v := by
  unfold vdot vnorm
  rw [← List.sum_toFinset _ hV, ← List.sum_toFinset _ hV,
    ← List.sum_toFinset _ hV]
  exact Real.sum_mul_le_sqrt_mul_sqrt V.toFinset u v

theorem cosineSim_nonneg (V : List String) (u v : String → ℝ)
    (hu : ∀ t, 0 ≤ u t) (hv : ∀ t, 0 ≤ v t) : 0 ≤ cosineSim V u v :=
  vdot_nonneg V _ _ (l2normalize_nonneg V u hu) (l2normalize_nonneg V v hv)

theorem cosineSim_le_one (V : List String) (hV : V.Nodup) (u v : String → ℝ) :
    cosineSim V u v ≤ 1 := by
  unfold cosineSim
  calc vdot V (l2normalize V u) (l2normalize V v)
      ≤ vnorm V (l2normalize V u) * vnorm V (l2normalize V v) :=
        vdot_le_vnorm_mul_vnorm V hV _ _
    _ ≤ 1 := mul_le_one₀ (vnorm_l2normalize_le_one V u)
        (vnorm_nonneg _ _) (vnorm_l2normalize_le_one V v)

theorem idf_nonneg (vz : Vectorizer) (t : String) : 0 ≤ idf vz t := by
  unfold idf
  have hdf : (dfCount vz.texts t : ℝ) ≤ vz.texts.length := by
    exact_mod_cast List.length_filter_le _ _
  have h1 : (1 : ℝ) ≤ (1 + vz.texts.length) / (1 + dfCount vz.texts t) := by
    rw [le_div_iff₀ (by positivity)]
    linarith
  have h2 := Real.log_nonneg h1
  linarith

theorem rawVec_nonneg (vz : Vectorizer) (doc t : String) :
    0 ≤ rawVec vz doc t := by
  unfold rawVec
  split
  · exact mul_nonneg (Nat.cast_nonneg _) (idf_nonneg vz t)
  · exact le_refl 0

theorem transform_nonneg (vz : Vectorizer) (doc t : String) :
    0 ≤ transform vz doc t :=
  l2normalize_nonneg _ _ (rawVec_nonneg vz doc) t

theorem fit_ok_eq (texts : List String) (vz : Vectorizer)
    (h : fit texts = Except.ok vz) : vz = ⟨fitVocab texts, texts⟩ := by
  unfold fit at h
  split at h
  · cases h
  · injection h with h'
    exact h'.symm

theorem fitVocab_nodup (texts : List String) : (fitVocab texts).Nodup :=
  List.nodup_dedup _

theorem mem_simScores (vz : Vectorizer) (query : String) (texts : List String)
    (x : ℝ) (hx : x ∈ simScores vz query texts) :
    ∃ d ∈ texts, x = cosineSim vz.vocab (transform vz query) (transform vz d) := by
  unfold simScores at hx
  obtain ⟨cv, hcv, rfl⟩ := List.mem_map.mp hx
  obtain ⟨d, hd, rfl⟩ := List.mem_map.mp hcv
  exact ⟨d, hd, rfl⟩

/-! ## Tokenizer lemmas -/

theorem tokenizeAux_nil (cur : List Char) :
    tokenizeAux [] cur = if cur.isEmpty then [] else [cur.reverse] := rfl

theorem tokenizeAux_cons (c : Char) (rest cur : List Char) :
    tokenizeAux (c :: rest) cur =
      if isWordChar c then tokenizeAux rest (c :: cur)
      else if c.isWhitespace then
        (if cur.isEmpty then [] else [cur.reverse]) ++ tokenizeAux rest []
      else
        (if cur.isEmpty then [] else [cur.reverse]) ++ [[c]] ++ tokenizeAux rest [] := rfl

/-- A space flushes the current run, so tokenization distributes over it. -/
theorem tokenizeAux_append_space (ys : List Char) :
    ∀ (xs cur : List Char), tokenizeAux (xs ++ ' ' :: ys) cur
      = tokenizeAux xs cur ++ tokenizeAux ys [] := by
  intro xs
  induction xs with
  | nil =>
    intro cur
    rw [List.nil_append, tokenizeAux_cons, tokenizeAux_nil]
    have h1 : isWordChar ' ' = false := by decide
    have h2 : (' ').isWhitespace = true := by decide
    simp [h1, h2]
  | cons c rest ih =>
    intro cur
    rw [List.cons_append, tokenizeAux_cons, tokenizeAux_cons]
    by_cases h1 : isWordChar c
    · simp only [h1, if_true]
      exact ih (c :: cur)
    · by_cases h2 : c.isWhitespace <;>
        simp [h1, h2, ih, List.append_assoc]

/-- A lone character never produces a token of length at least two. -/
theorem tokenizeAux_single_short (c : Char) :
    (tokenizeAux [c] []).filter (fun l => decide (2 ≤ l.length)) = [] := by
  unfold tokenizeAux
  by_cases h1 : isWordChar c
  · simp [h1, tokenizeAux]
  · by_cases h2 : c.isWhitespace <;> simp [h1, h2, tokenizeAux]

/-- Appending a single-character word to a document does not change the
vectorizer's token sequence (the default token pattern needs two word
characters). -/
theorem sklearnTokenize_append_single (doc w : String) (hw : w.length = 1) :
    sklearnTokenize (doc ++ " " ++ w) = sklearnTokenize doc := by
  obtain ⟨c, hc⟩ : ∃ c, w.data = [c] := by
    have : w.data.length = 1 := hw
    exact List.length_eq_one.mp this
  unfold sklearnTokenize
  rw [String.data_append, String.data_append, hc]
  rw [show (" " : String).data = [' '] from rfl]
  rw [List.append_assoc, List.singleton_append, List.map_append]
  rw [show List.map Char.toLower (' ' :: [c]) = ' ' :: [c.toLower] from rfl]
  rw [tokenizeAux_append_space]
  rw [List.filter_append, tokenizeAux_single_short, List.append_nil]

/-- TF-IDF vectors depend on a document only through its analyzer tokens. -/
theorem transform_congr (vz : Vectorizer) (d1 d2 : String)
    (h : sklearnTokenize d1 = sklearnTokenize d2) :
    transform vz d1 = transform vz d2 := by
  have hraw : rawVec vz d1 = rawVec vz d2 := by
    funext t
    unfold rawVec tfCount
    rw [h]
  unfold transform
  rw [hraw]

/-! ## Joined token sequences: characters of a space-joined word list -/

/-- The characters of a list of words joined by single spaces. -/
def joinChars : List (List Char) → List Char
  | [] => []
  | w :: rest => w ++ (rest.map (fun r => ' ' :: r)).flatten

theorem intercalate_go_data (as : List String) :
    ∀ acc : String, (String.intercalate.go acc " " as).data
      = acc.data ++ (as.map (fun b => ' ' :: b.data)).flatten := by
  induction as with
  | nil => intro acc; simp [String.intercalate.go]
  | cons b bs ih =>
    intro acc
    show (String.intercalate.go (acc ++ " " ++ b) " " bs).data = _
    rw [ih]
    simp [String.data_append, List.append_assoc]

theorem intercalate_space_data (ts : List String) :
    (String.intercalate " " ts).data = joinChars (ts.map String.data) := by
  cases ts with
  | nil => rfl
  | cons a as =>
    show (String.intercalate.go a " " as).data = _
    rw [intercalate_go_data]
    simp [joinChars, List.map_map]
    rfl

theorem tokenizeAux_word_run (l : List Char) :
    ∀ cur : List Char, (∀ c ∈ l, isWordChar c = true) → (cur ≠ [] ∨ l ≠ []) →
      tokenizeAux l cur = [cur.reverse ++ l] := by
  induction l with
  | nil =>
    intro cur _ hne
    have hcur : cur ≠ [] := by
      rcases hne with hh | hh
      · exact hh
      · exact absurd rfl hh
    rw [tokenizeAux_nil, if_neg (by simpa [List.isEmpty_iff] using hcur)]
    simp
  | cons c rest ih =>
    intro cur hl _
    rw [tokenizeAux_cons, if_pos (hl c (by simp))]
    rw [ih (c :: cur) (fun x hx => hl x (by simp [hx])) (Or.inl (by simp))]
    simp

theorem tokenizeAux_joinChars (ws : List (List Char)) :
    (∀ w ∈ ws, w ≠ [] ∧ ∀ c ∈ w, isWordChar c = true) →
    tokenizeAux (joinChars ws) [] = ws := by
  induction ws with
  | nil => intro _; rfl
  | cons w rest ih =>
    intro h
    cases rest with
    | nil =>
      show tokenizeAux (w ++ ([] : List (List Char)).flatten) [] = [w]
      rw [show (([] : List (List Char)).flatten) = [] from rfl, List.append_nil]
      rw [tokenizeAux_word_run w [] (h w (by simp)).2 (Or.inr (h w (by simp)).1)]
      simp
    | cons r rest' =>
      show tokenizeAux (w ++ (((r :: rest').map (fun x => ' ' :: x)).flatten)) []
        = w :: r :: rest'
      have hflat : ((r :: rest').map (fun x => ' ' :: x)).flatten
          = ' ' :: joinChars (r :: rest') := by
        simp [joinChars]
      rw [hflat, tokenizeAux_append_space]
      rw [tokenizeAux_word_run w [] (h w (by simp)).2 (Or.inr (h w (by simp)).1)]
      rw [ih (fun x hx => h x (by simp [hx]))]
      simp

theorem word_tokenize_intercalate (ts : List String)
    (h : ∀ t ∈ ts, t.data ≠ [] ∧ ∀ c ∈ t.data, isWordChar c = true) :
    word_tokenize (String.intercalate " " ts) = ts := by
  unfold word_tokenize
  rw [intercalate_space_data, tokenizeAux_joinChars]
  · have hmk : String.mk ∘ String.data = id := funext fun t => rfl
    rw [List.map_map, hmk, List.map_id]
  · intro w hw
    obtain ⟨t, ht, rfl⟩ := List.mem_map.mp hw
    exact ⟨(h t ht).1, (h t ht).2⟩

theorem mem_joinChars (ws : List (List Char)) (c : Char)
    (hc : c ∈ joinChars ws) : c = ' ' ∨ ∃ w ∈ ws, c ∈ w := by
  cases ws with
  | nil => cases hc
  | cons w rest =>
    rcases List.mem_append.mp hc with h1 | h2
    · exact Or.inr ⟨w, by simp, h1⟩
    · obtain ⟨l, hl, hcl⟩ := List.mem_flatten.mp h2
      obtain ⟨r, hr, rfl⟩ := List.mem_map.mp hl
      rcases List.mem_cons.mp hcl with rfl | hcr
      · exact Or.inl rfl
      · exact Or.inr ⟨r, by simp [hr], hcr⟩

theorem eq_of_map_eq_self {α : Type} {f : α → α} :
    ∀ l : List α, l.map f = l → ∀ c ∈ l, f c = c := by
  intro l
  induction l with
  | nil => intro _ c hc; cases hc
  | cons a l ih =>
    intro h c hc
    rw [List.map_cons] at h
    injection h with h1 h2
    rcases List.mem_cons.mp hc with rfl | hcl
    · exact h1
    · exact ih h2 c hcl

theorem strLower_intercalate (ts : List String)
    (h : ∀ t ∈ ts, t.data.map Char.toLower = t.data) :
    strLower (String.intercalate " " ts) = String.intercalate " " ts := by
  have hdata : (String.intercalate " " ts).data.map Char.toLower
      = (String.intercalate " " ts).data := by
    rw [intercalate_space_data]
    have hmem : ∀ c ∈ joinChars (ts.map String.data), Char.toLower c = c := by
      intro c hc
      rcases mem_joinChars _ c hc with rfl | ⟨w, hw, hcw⟩
      · decide
      · obtain ⟨t, ht, rfl⟩ := List.mem_map.mp hw
        exact eq_of_map_eq_self _ (h t ht) c hcw
    calc (joinChars (ts.map String.data)).map Char.toLower
        = (joinChars (ts.map String.data)).map id := List.map_congr_left hmem
      _ = joinChars (ts.map String.data) := List.map_id _
  exact String.ext hdata

/-! ## Claim theorems -/

/-- C1: `preprocess` equals the spec's four-step pipeline — lowercase,
tokenize, discard tokens containing a non-alphabetic character, remove
stopwords, stem — and null or empty input yields the empty token sequence
rather than an error. -/
theorem preprocess_eq_spec_pipeline :
    (∀ text, preprocess text = String.intercalate " " (normalizeSpec text)) ∧
    preprocess none = "" ∧ preprocess (some "") = "" := by
  refine ⟨?_, rfl, rfl⟩
  intro text
  match text with
  | none => rfl
  | some t =>
    by_cases ht : t = ""
    · subst ht; rfl
    · simp only [preprocess, normalizeSpec, Option.getD_some, ht, if_false,
        List.filter_filter]
      have hcomm : (fun w => isalpha w && !STOPWORDS.contains w)
          = (fun a => !STOPWORDS.contains a && isalpha a) := by
        funext w; exact Bool.and_comm _ _
      rw [hcomm]

/-- C3: the ranking of line 198 sorts by descending similarity score, ties
retain the original corpus order (stability: for every score value, the
equal-scored entries appear exactly as in the corpus-order input), and the
result of a repeated call on an unchanged corpus and query is identical. -/
theorem ranking_sorted_stable_deterministic :
    (∀ vz query ids texts,
      (rankedPairs vz query ids texts).Sorted (fun a b => b.2 ≤ a.2)) ∧
    (∀ vz query ids texts (c : ℝ),
      (rankedPairs vz query ids texts).filter (fun p => p.2 = c)
        = (ids.zip (simScores vz query texts)).filter (fun p => p.2 = c)) ∧
    (∀ store item k, find_matches store item k = find_matches store item k) := by
  exact ⟨fun _ _ _ _ => sorted_rankByScore _,
    fun _ _ _ _ c => filter_rankByScore c _,
    fun _ _ _ => rfl⟩

/-- C4: when the opposite-type corpus is empty, `find_matches` returns an
empty sequence immediately, with no error. -/
theorem find_matches_empty_corpus (store : List Item) (item : Item) (k : ℕ)
    (h : get_items store (opposite item.type) = []) :
    find_matches store item k = Except.ok [] := by
  simp [find_matches, corpusTexts, h]

/-- Witness for C4 at a concrete store and query: the store holds no
`found` record, and the `lost` query yields `ok []`. -/
theorem find_matches_empty_corpus_witness :
    get_items storeL (opposite queryL.type) = [] ∧
      find_matches storeL queryL 5 = Except.ok [] := by
  refine ⟨by decide, find_matches_empty_corpus storeL queryL 5 (by decide)⟩

/-- C5: a successful `find_matches` returns exactly `min k N` results,
where `N` is the size of the opposite-type corpus: `k = 0` yields an empty
result and `k ≥ N` yields the entire corpus ranked. -/
theorem find_matches_result_length (store : List Item) (item : Item) (k : ℕ)
    (rs : List (Item × ℝ)) (h : find_matches store item k = Except.ok rs) :
    rs.length = min k (get_items store (opposite item.type)).length := by
  unfold find_matches at h
  by_cases hemp : (corpusTexts store (opposite item.type)).isEmpty = true
  · rw [if_pos hemp] at h
    injection h with h'
    subst h'
    have hnil : get_items store (opposite item.type) = [] := by
      have hne := List.isEmpty_iff.mp hemp
      unfold corpusTexts at hne
      exact List.map_eq_nil_iff.mp hne
    rw [hnil]
    simp
  · rw [if_neg hemp] at h
    cases hfit : fit (corpusTexts store (opposite item.type)) with
    | error e => rw [hfit] at h; cases h
    | ok vz =>
      rw [hfit] at h
      injection h with h'
      subst h'
      have hlen : (rankedPairs vz (preprocess (some (itemText item)))
          (corpusIds store (opposite item.type))
          (corpusTexts store (opposite item.type))).length
          = (get_items store (opposite item.type)).length := by
        rw [(rankedPairs_perm _ _ _ _).length_eq]
        rw [List.length_zip, length_simScores]
        unfold corpusIds corpusTexts
        simp
      have hmemok : ∀ p ∈ (rankedPairs vz (preprocess (some (itemText item)))
          (corpusIds store (opposite item.type))
          (corpusTexts store (opposite item.type))).take k,
          (get_items store (opposite item.type)).filter
            (fun it => it.id == p.1) ≠ [] := by
        intro p hp
        have hp1 := List.take_subset k _ hp
        have hp2 := (rankedPairs_perm vz (preprocess (some (itemText item)))
          (corpusIds store (opposite item.type))
          (corpusTexts store (opposite item.type))).mem_iff.mp hp1
        obtain ⟨a, b⟩ := p
        have hid : a ∈ corpusIds store (opposite item.type) :=
          (List.of_mem_zip hp2).1
        unfold corpusIds at hid
        obtain ⟨it, hit, hida⟩ := List.mem_map.mp hid
        intro hcon
        have hmem : it ∈ (get_items store (opposite item.type)).filter
            (fun x => x.id == (a, b).1) := by
          rw [List.mem_filter]
          exact ⟨hit, by simp [hida]⟩
        rw [hcon] at hmem
        cases hmem
      rw [joinResults_length _ _ hmemok, List.length_take, hlen]

/-- Witness for C5 at the concrete wallet store: one corpus record,
`k = 5`, one result — `min 5 1`. -/
theorem find_matches_result_length_witness :
    [((itemF : Item), (1 : ℝ))].length
      = min 5 (get_items storeW (opposite queryL.type)).length :=
  find_matches_result_length storeW queryL 5 [(itemF, 1)] find_matches_eval_W

/-- C9: every result of a successful `find_matches` on a valid-typed query
is a store record of the opposite type (paired with its score), so a record
never matches a record of its own type — in particular never itself. -/
theorem find_matches_opposite_only (store : List Item) (item : Item) (k : ℕ)
    (rs : List (Item × ℝ))
    (hvalid : item.type = "lost" ∨ item.type = "found")
    (h : find_matches store item k = Except.ok rs) :
    ∀ r ∈ rs, r.1 ∈ store ∧ r.1.type = opposite item.type ∧
      r.1.type ≠ item.type := by
  intro r hr
  have hbase : r.1 ∈ get_items store (opposite item.type) := by
    unfold find_matches at h
    by_cases hemp : (corpusTexts store (opposite item.type)).isEmpty = true
    · rw [if_pos hemp] at h
      injection h with h'
      subst h'
      cases hr
    · rw [if_neg hemp] at h
      cases hfit : fit (corpusTexts store (opposite item.type)) with
      | error e => rw [hfit] at h; cases h
      | ok vz =>
        rw [hfit] at h
        injection h with h'
        subst h'
        exact (mem_joinResults _ _ r hr).1
  have hmem := List.mem_filter.mp hbase
  have hty : r.1.type = opposite item.type := by
    have hb := hmem.2
    exact beq_iff_eq.mp hb
  refine ⟨hmem.1, hty, ?_⟩
  rw [hty]
  rcases hvalid with hv | hv <;> rw [hv] <;> decide

/-- Witness for C9 at the concrete wallet store: the sole result is the
`found` record for a `lost` query. -/
theorem find_matches_opposite_only_witness :
    itemF ∈ storeW ∧ itemF.type = opposite queryL.type ∧
      itemF.type ≠ queryL.type := by
  have hres := find_matches_opposite_only storeW queryL 5 [(itemF, 1)]
    (Or.inl (by decide)) find_matches_eval_W (itemF, 1) (by simp)
  exact hres

/-- C6: every similarity score attached to a `find_matches` result lies in
`[0, 1]`; and the cosine similarity of any vector against the zero vector
(the image of an empty or entirely out-of-vocabulary document) is exactly
`0`, on either side, never undefined. -/
theorem scores_unit_interval :
    (∀ store item k rs, find_matches store item k = Except.ok rs →
      ∀ r ∈ rs, 0 ≤ r.2 ∧ r.2 ≤ 1) ∧
    (∀ V v, cosineSim V v (fun _ => 0) = 0 ∧ cosineSim V (fun _ => 0) v = 0) := by
  constructor
  · intro store item k rs h r hr
    unfold find_matches at h
    by_cases hemp : (corpusTexts store (opposite item.type)).isEmpty = true
    · rw [if_pos hemp] at h
      injection h with h'
      subst h'
      cases hr
    · rw [if_neg hemp] at h
      cases hfit : fit (corpusTexts store (opposite item.type)) with
      | error e => rw [hfit] at h; cases h
      | ok vz =>
        rw [hfit] at h
        injection h with h'
        subst h'
        obtain ⟨-, p, hp, hsc⟩ := mem_joinResults _ _ r hr
        have hp1 := List.take_subset k _ hp
        have hp2 := (rankedPairs_perm vz (preprocess (some (itemText item)))
          (corpusIds store (opposite item.type))
          (corpusTexts store (opposite item.type))).mem_iff.mp hp1
        obtain ⟨a, b⟩ := p
        have hsim : b ∈ simScores vz (preprocess (some (itemText item)))
            (corpusTexts store (opposite item.type)) := (List.of_mem_zip hp2).2
        obtain ⟨d, -, hd⟩ := mem_simScores _ _ _ _ hsim
        have hvoc : vz.vocab = fitVocab (corpusTexts store (opposite item.type)) := by
          rw [fit_ok_eq _ _ hfit]
        rw [hsc]
        show 0 ≤ b ∧ b ≤ 1
        rw [hd]
        exact ⟨cosineSim_nonneg _ _ _ (transform_nonneg vz _) (transform_nonneg vz _),
          cosineSim_le_one _ (hvoc ▸ fitVocab_nodup _) _ _⟩
  · intro V v
    have hzn : vnorm V (fun _ => (0 : ℝ)) = 0 := by
      unfold vnorm
      have hsum : (V.map (fun t => ((fun _ => (0 : ℝ)) t) ^ 2)).sum = 0 :=
        List.sum_eq_zero (by
          intro x hx
          obtain ⟨t, _, rfl⟩ := List.mem_map.mp hx
          norm_num)
      rw [hsum, Real.sqrt_zero]
    have hl2 : l2normalize V (fun _ => (0 : ℝ)) = (fun _ => (0 : ℝ)) := by
      unfold l2normalize
      rw [if_pos hzn]
    constructor
    · unfold cosineSim
      rw [hl2]
      exact List.sum_eq_zero (by
        intro x hx
        obtain ⟨t, _, rfl⟩ := List.mem_map.mp hx
        simp)
    · unfold cosineSim
      rw [hl2]
      exact List.sum_eq_zero (by
        intro x hx
        obtain ⟨t, _, rfl⟩ := List.mem_map.mp hx
        simp)

/-- Witness for C6 at the concrete wallet store: the sole returned score is
`1`, which lies in `[0, 1]`. -/
theorem scores_unit_interval_witness : (0 : ℝ) ≤ 1 ∧ (1 : ℝ) ≤ 1 := by
  have hres := scores_unit_interval.1 storeW queryL 5 [(itemF, 1)]
    find_matches_eval_W (itemF, 1) (by simp)
  exact hres

/-- C10: the fitted vocabulary never contains a term shorter than two
characters (the vectorizer's default token pattern needs at least two word
characters), so adding a single-letter word to a document leaves its TF-IDF
vector — hence every similarity score — unchanged, even though `preprocess`
retains such words (e.g. the normalized document `"blue q"`). -/
theorem single_letter_words_score_zero :
    (∀ texts t, t ∈ fitVocab texts → 2 ≤ t.length) ∧
    (∀ vz (doc w : String), w.length = 1 →
      transform vz (doc ++ " " ++ w) = transform vz doc) ∧
    preprocess (some "blue q") = "blue q" := by
  refine ⟨?_, ?_, by decide⟩
  · intro texts t ht
    have ht1 : t ∈ texts.flatMap sklearnTokenize := List.mem_dedup.mp ht
    obtain ⟨d, -, htok⟩ := List.mem_flatMap.mp ht1
    unfold sklearnTokenize at htok
    obtain ⟨l, hl, rfl⟩ := List.mem_map.mp htok
    have hlen := (List.mem_filter.mp hl).2
    simpa [String.length_mk] using hlen
  · intro vz doc w hw
    exact transform_congr vz _ _ (sklearnTokenize_append_single doc w hw)

/-- C8 counterexample: `preprocess` is not idempotent on its own output.
Stopwords are removed before stemming, so on input `"dons"` the output
token `"don"` (the Porter stem of the non-stopword `"dons"`) is itself an
NLTK stopword, and a second application removes it. -/
theorem preprocess_not_idempotent :
    preprocess (some "dons") = "don" ∧ preprocess (some "don") = "" ∧
      preprocess (some (preprocess (some "dons"))) ≠ preprocess (some "dons") :=
  ⟨by decide, by decide, by decide⟩

/-- C8 amended: normalization is idempotent only on token sequences whose
tokens genuinely have the output-class properties — nonempty, alphabetic,
already lowercase, outside the stopword set, and fixed points of the
stemmer.  (The properties are real preconditions, not guarantees: because
stopword removal precedes stemming, an output token may itself be a
stopword — see the counterexample — so idempotence fails in general.) -/
theorem preprocess_idempotent_on_normalized (ts : List String)
    (h : ∀ t ∈ ts, t.data ≠ [] ∧ t.data.all Char.isAlpha = true ∧
      t.data.map Char.toLower = t.data ∧ STOPWORDS.contains t = false ∧
      stem t = t) :
    preprocess (some (String.intercalate " " ts)) = String.intercalate " " ts := by
  cases ts with
  | nil => rfl
  | cons a as =>
    have ha := h a (by simp)
    have hne : String.intercalate " " (a :: as) ≠ "" := by
      intro hcon
      have hd := congrArg String.data hcon
      rw [intercalate_space_data] at hd
      exact ha.1 (List.append_eq_nil.mp hd).1
    have hword : ∀ t ∈ a :: as, t.data ≠ [] ∧ ∀ c ∈ t.data, isWordChar c = true := by
      intro t ht
      refine ⟨(h t ht).1, ?_⟩
      intro c hc
      have halpha := List.all_eq_true.mp (h t ht).2.1 c hc
      unfold isWordChar Char.isAlphanum
      rw [halpha]
      rfl
    unfold preprocess
    simp only [Option.getD_some]
    rw [if_neg hne]
    rw [strLower_intercalate _ (fun t ht => (h t ht).2.2.1)]
    rw [word_tokenize_intercalate _ hword]
    rw [List.filter_eq_self.mpr ?_]
    · rw [List.map_congr_left (fun t ht => (h t ht).2.2.2.2), List.map_id']
    · intro t ht
      have hemp : t.data.isEmpty = false := by
        cases hdata : t.data with
        | nil => exact absurd hdata (h t ht).1
        | cons x xs => rfl
      have hia : isalpha t = true := by
        unfold isalpha
        rw [hemp, (h t ht).2.1]
        rfl
      show (isalpha t && !STOPWORDS.contains t) = true
      rw [hia, (h t ht).2.2.2.1]
      rfl

/-- Witness for the amended C8 on a concrete normalized output: both
tokens of `"black wallet"` are nonempty lowercase alphabetic non-stopwords
fixed by the stemmer, so a second normalization leaves them unchanged. -/
theorem preprocess_idempotent_on_normalized_witness :
    preprocess (some (String.intercalate " " ["black", "wallet"]))
      = String.intercalate " " ["black", "wallet"] := by
  apply preprocess_idempotent_on_normalized
  intro t ht
  simp only [List.mem_cons, List.mem_singleton] at ht
  rcases ht with rfl | rfl | hfalse
  · exact ⟨by decide, by decide, by decide, by decide, by decide⟩
  · exact ⟨by decide, by decide, by decide, by decide, by decide⟩
  · cases hfalse

/-- Witness for C10: the two-character term of a tiny corpus is in the
vocabulary and has length at least two, and appending the single-letter
word `"q"` leaves the transform of `"ab"` unchanged. -/
theorem single_letter_words_score_zero_witness :
    2 ≤ "ab".length ∧ transform vzW ("ab" ++ " " ++ "q") = transform vzW "ab" :=
  ⟨single_letter_words_score_zero.1 ["ab"] "ab" (by decide),
    single_letter_words_score_zero.2.1 vzW "ab" "q" (by decide)⟩

/-- C7 counterexample: a record whose type tag is `"banana"` — neither
`lost` nor `found` — is not rejected: `find_matches` processes it as a
`found`-type query, matching it against the `lost` corpus and returning a
normal ranked result. -/
theorem invalid_type_not_rejected :
    bananaQ.type ≠ "lost" ∧ bananaQ.type ≠ "found" ∧ itemL.type = "lost" ∧
      find_matches storeL bananaQ 5 = Except.ok [(itemL, 1)] :=
  ⟨by decide, by decide, by decide, find_matches_eval_banana⟩

/-- C7 amended: `find_matches` never rejects a record with an unrecognized
type; any record whose type is not `"lost"` is processed exactly as if its
type were `"found"` (the opposite corpus defaults to `lost`). -/
theorem find_matches_invalid_type (store : List Item) (item : Item) (k : ℕ)
    (h : item.type ≠ "lost") :
    find_matches store item k = find_matches store { item with type := "found" } k := by
  obtain ⟨i, ty, nm, ds, pl, dt, ct, im⟩ := item
  simp only [Item.type] at h
  have h1 : opposite ty = "lost" := by rw [opposite, if_neg h]
  have h2 : opposite "found" = "lost" := rfl
  simp [find_matches, itemText, h1, h2]

/-- Witness for the amended C7: at the concrete invalid-typed query, the
hypothesis holds and the behaviour equals that of a `found`-typed query. -/
theorem find_matches_invalid_type_witness :
    find_matches storeL bananaQ 5
      = find_matches storeL { bananaQ with type := "found" } 5 :=
  find_matches_invalid_type storeL bananaQ 5 (by decide)

/-- C2 counterexample: a non-empty corpus whose sole record normalizes to
the empty document (its only text field is the stopword `"a"`) makes
`TfidfVectorizer().fit` raise the empty-vocabulary `ValueError`, which
`find_matches` propagates instead of returning a result. -/
theorem malformed_text_corpus_raises :
    corpusTexts badStore (opposite queryL.type) = [""] ∧
      find_matches badStore queryL 5
        = Except.error "empty vocabulary; perhaps the documents only contain stop words" := by
  constructor
  · decide
  · rfl

/-- C2 amended: normalization itself never fails, and `find_matches`
returns a result (rather than raising) whenever the opposite-type corpus is
empty or at least one of its normalized documents yields a vocabulary term;
only when the corpus is non-empty and entirely vocabulary-free does the fit
step raise. -/
theorem find_matches_ok_of_vocab (store : List Item) (item : Item) (k : ℕ)
    (h : corpusTexts store (opposite item.type) = [] ∨
      (fitVocab (corpusTexts store (opposite item.type))).isEmpty = false) :
    ∃ rs, find_matches store item k = Except.ok rs := by
  cases h with
  | inl he => exact ⟨[], by simp [find_matches, he]⟩
  | inr hv =>
    unfold find_matches
    by_cases hemp : (corpusTexts store (opposite item.type)).isEmpty
    · exact ⟨[], by simp [hemp]⟩
    · rw [if_neg (by simp [hemp])]
      unfold fit
      rw [hv]
      exact ⟨_, rfl⟩

/-- Witness for the amended C2: the wallet corpus has a non-empty
vocabulary, so matching returns a result. -/
theorem find_matches_ok_of_vocab_witness :
    ∃ rs, find_matches storeW queryL 5 = Except.ok rs :=
  find_matches_ok_of_vocab storeW queryL 5 (Or.inr (by decide))

end Lost
